import Mathlib

/-!
Shallow embedding of the sequential BV-graph reader
(`src/graphs/bvgraph/sequential.rs`) and proofs about its
successor-list decoder, circular back-reference buffer and iterator.

The Rust `Decoder` trait is used infallibly in this file's scope (every
`read_*` call is consumed with `as usize`, no `?`), so the code reader is
modelled as a pure stream `Nat → Nat` together with a read cursor; each
read also records which operation was invoked, so that claims about which
fields are consumed can be stated.  Rust `usize` arithmetic that can leave
the guarded domain (subtraction underflow, slice indexing out of bounds)
is modelled by an `Option` result where `none` stands for the Rust panic
(debug-mode overflow check / slice bound check); the `usize` additions of
the interval and residual phases are likewise checked against `2^64`
(`usizeAdd`); the value-preserving two's-complement casts `as i64` /
`as usize` are modelled exactly with `% 2^64`.
-/

/-- The kinds of read operations of the code reader (`Decoder` trait),
in the order the decoder of `sequential.rs` invokes them. -/
inductive ReadOp where
  | outdegree
  | refOffset
  | blockCount
  | block
  | intervalCount
  | intervalStart
  | intervalLen
  | firstResidual
  | residual
deriving DecidableEq

/-- State of the code reader: position of the next value in the stream,
and the trace of operations invoked so far (instrumentation used to state
claims about which fields are consumed). -/
structure DSt where
  pos : Nat
  trace : List ReadOp
deriving DecidableEq

/-- Perform one read on stream `f`: return the value at the cursor,
advance the cursor, record the operation. -/
def DSt.read (f : Nat → Nat) (op : ReadOp) (s : DSt) : Nat × DSt :=
  (f s.pos, ⟨s.pos + 1, s.trace ++ [op]⟩)

/-- Modelled from the spec: `nat2int` (in `crate::utils`, not under `src/`),
"the bijection between non-negative integers on the wire and signed
integers": even `2k ↦ +k`, odd `2k+1 ↦ −(k+1)`. -/
def nat2int (n : Nat) : Int :=
  if n % 2 = 0 then ((n / 2 : Nat) : Int) else -(((n / 2 : Nat) : Int) + 1)

/-- The value-preserving/wrapping cast `usize as i64` (two's complement). -/
def usizeAsI64 (n : Nat) : Int :=
  if n < 2 ^ 63 then (n : Int) else (n : Int) - 2 ^ 64

/-- The wrapping cast `i64 as usize` (two's complement reinterpretation). -/
def i64AsUsize (x : Int) : Nat :=
  (x % (2 ^ 64 : Int)).toNat

/-- Rust `usize` addition `a + b`: defined when the sum fits in 64 bits,
otherwise the overflow leaves the guarded domain (debug-mode panic,
`none`; in release the value wraps instead, equally diverging from the
mathematical sum). -/
def usizeAdd (a b : Nat) : Option Nat :=
  if a + b < 2 ^ 64 then some (a + b) else none

/-- Rust slice `&l[a..b]`: defined when `a ≤ b ≤ l.length`, otherwise the
access panics (`none`). -/
def sliceRange (l : List Nat) (a b : Nat) : Option (List Nat) :=
  if a ≤ b ∧ b ≤ l.length then some ((l.drop a).take (b - a)) else none

/-- Modelled from the spec: `CircularBufferVec` (in `crate::utils`, not
under `src/`), §4.2 of the spec: a fixed-capacity store of the last
`W+1` successor lists, addressed by `node_id mod capacity`. -/
structure CircularBufferVec where
  data : List (List Nat)
deriving DecidableEq

/-- Modelled from the spec: a fresh buffer of capacity `cap`, all slots
empty (`CircularBufferVec::new`). -/
def CircularBufferVec.new (cap : Nat) : CircularBufferVec :=
  ⟨List.replicate cap []⟩

/-- Modelled from the spec: `lookup(node_id)` — read-only borrow of the
list at slot `node_id mod capacity` (the `Index` impl used by
`&self.backrefs[reference_node_id]`). -/
def CircularBufferVec.index (b : CircularBufferVec) (node : Nat) : List Nat :=
  b.data.getD (node % b.data.length) []

/-- Modelled from the spec: `take(node_id)` — detach and return the
storage previously at slot `node_id mod capacity` for recycling, reset
to empty (§4.2; §4.3 requires the returned recycled buffer to be empty). -/
def CircularBufferVec.take (b : CircularBufferVec) (node : Nat) :
    List Nat × CircularBufferVec :=
  ([], ⟨b.data.set (node % b.data.length) []⟩)

/-- Modelled from the spec: `push(node_id, list)` — install `list` at slot
`node_id mod capacity` and return a borrow to it (§4.2). -/
def CircularBufferVec.push (b : CircularBufferVec) (node : Nat) (l : List Nat) :
    List Nat × CircularBufferVec :=
  (l, ⟨b.data.set (node % b.data.length) l⟩)

/-- Models `results.sort()` (ascending sort of a `Vec<usize>`); on lists of
naturals any correct sort produces the same sorted permutation. -/
def sortNat (l : List Nat) : List Nat :=
  l.insertionSort (· ≤ ·)

/-- Models the loop `for block_id in 1..number_of_blocks` of
`get_successors_iter_priv` (`sequential.rs:229-236`): read one block
length, compute `end = idx + block + 1`, copy `&neighbours[idx..end]` when
`block_id` is even, advance `idx`.  `steps` is the number of remaining
iterations; `none` models the slice-bound panic. -/
def copyBlocks (f : Nat → Nat) (neighbours : List Nat) :
    Nat → Nat → Nat → List Nat → DSt → Option (List Nat × Nat) × DSt
  | 0, _blockId, idx, results, s => (some (results, idx), s)
  | steps + 1, blockId, idx, results, s =>
    let r := s.read f .block
    let e := idx + r.1 + 1
    if blockId % 2 = 0 then
      match sliceRange neighbours idx e with
      | some seg => copyBlocks f neighbours steps (blockId + 1) e (results ++ seg) r.2
      | none => (none, r.2)
    else
      copyBlocks f neighbours steps (blockId + 1) e results r.2

/-- Models the reference phase of `get_successors_iter_priv`
(`sequential.rs:204-241`): read the reference offset only when
`compression_window != 0`; when the offset is non-zero, look up the
referenced list in the circular buffer and copy either all of it
(block count 0) or the even-indexed blocks.  `none` models the Rust
panics: `node_id - ref_delta` underflow and slice bounds. -/
def referencePhase (f : Nat → Nat) (W : Nat) (backrefs : CircularBufferVec)
    (node_id : Nat) (results : List Nat) (s : DSt) : Option (List Nat) × DSt :=
  let rd := if W ≠ 0 then s.read f .refOffset else (0, s)
  let ref_delta := rd.1
  let s := rd.2
  if ref_delta ≠ 0 then
    if ref_delta ≤ node_id then
      let reference_node_id := node_id - ref_delta
      let neighbours := backrefs.index reference_node_id
      let rb := s.read f .blockCount
      let number_of_blocks := rb.1
      let s := rb.2
      if number_of_blocks = 0 then
        (some (results ++ neighbours), s)
      else
        let ri := s.read f .block
        let s := ri.2
        match sliceRange neighbours 0 ri.1 with
        | none => (none, s)
        | some seg =>
          match copyBlocks f neighbours (number_of_blocks - 1) 1 ri.1 (results ++ seg) s with
          | (none, s) => (none, s)
          | (some (results, idx), s) =>
            if number_of_blocks % 2 = 0 then
              match sliceRange neighbours idx neighbours.length with
              | none => (none, s)
              | some tail => (some (results ++ tail), s)
            else (some results, s)
    else (none, s)
  else (some results, s)

/-- Models the loop `for _ in 1..number_of_intervals` of
`get_successors_iter_priv` (`sequential.rs:258-266`): per iteration read a
gap (`read_interval_start`) and a length (`read_interval_len`), extend with
the run `start..start+delta`, advance `start`; every `usize` addition
(`1 + gap`, `start += ...`, `delta += L`, `start + delta`) is checked
against overflow (`none` models the panic). -/
def intervalLoop (f : Nat → Nat) (L : Nat) :
    Nat → Nat → List Nat → DSt → Option (List Nat × Nat) × DSt
  | 0, start, results, s => (some (results, start), s)
  | steps + 1, start, results, s =>
    let rg := s.read f .intervalStart
    match usizeAdd 1 rg.1 with
    | none => (none, rg.2)
    | some inc =>
      match usizeAdd start inc with
      | none => (none, rg.2)
      | some start1 =>
        let rd := rg.2.read f .intervalLen
        match usizeAdd rd.1 L with
        | none => (none, rd.2)
        | some delta =>
          match usizeAdd start1 delta with
          | none => (none, rd.2)
          | some start2 =>
            intervalLoop f L steps start2 (results ++ List.range' start1 delta) rd.2

/-- Models the interval phase of `get_successors_iter_priv`
(`sequential.rs:243-268`): compute `nodes_left_to_decode = degree -
results.len()` (underflow panics: `none`), and when it is non-zero and
`min_interval_length != 0` read the interval count and decode the
intervals; the `usize` additions `delta += min_interval_length` and
`start + delta` are checked against overflow. -/
def intervalPhase (f : Nat → Nat) (L : Nat) (node_id degree : Nat)
    (results : List Nat) (s : DSt) : Option (List Nat) × DSt :=
  if degree < results.length then (none, s)
  else
    let nodes_left_to_decode := degree - results.length
    if nodes_left_to_decode ≠ 0 ∧ L ≠ 0 then
      let rc := s.read f .intervalCount
      let number_of_intervals := rc.1
      let s := rc.2
      if number_of_intervals ≠ 0 then
        let rv := s.read f .intervalStart
        let node_id_offset := nat2int rv.1
        let start := i64AsUsize (usizeAsI64 node_id + node_id_offset)
        let rd := rv.2.read f .intervalLen
        match usizeAdd rd.1 L with
        | none => (none, rd.2)
        | some delta =>
          match usizeAdd start delta with
          | none => (none, rd.2)
          | some start2 =>
            match intervalLoop f L (number_of_intervals - 1) start2
                (results ++ List.range' start delta) rd.2 with
            | (none, s) => (none, s)
            | (some out, s) => (some out.1, s)
      else (some results, s)
    else (some results, s)

/-- Models the loop `for _ in 1..nodes_left_to_decode` of
`get_successors_iter_priv` (`sequential.rs:278-281`): per iteration read a
residual gap, set `extra += 1 + gap`, push `extra`; the `usize` additions
`1 + gap` and `extra += ...` are checked against overflow (`none` models
the panic). -/
def residualLoop (f : Nat → Nat) :
    Nat → Nat → List Nat → DSt → Option (List Nat × Nat) × DSt
  | 0, extra, results, s => (some (results, extra), s)
  | steps + 1, extra, results, s =>
    let rg := s.read f .residual
    match usizeAdd 1 rg.1 with
    | none => (none, rg.2)
    | some inc =>
      match usizeAdd extra inc with
      | none => (none, rg.2)
      | some extra1 =>
        residualLoop f steps extra1 (results ++ [extra1]) rg.2

/-- Models the residual phase of `get_successors_iter_priv`
(`sequential.rs:270-282`): recompute `nodes_left_to_decode` (underflow
panics: `none`); when non-zero, read the first residual through `nat2int`
and then the remaining gap-coded residuals. -/
def residualPhase (f : Nat → Nat) (node_id degree : Nat)
    (results : List Nat) (s : DSt) : Option (List Nat) × DSt :=
  if degree < results.length then (none, s)
  else
    let nodes_left_to_decode := degree - results.length
    if nodes_left_to_decode ≠ 0 then
      let rv := s.read f .firstResidual
      let node_id_offset := nat2int rv.1
      let extra := i64AsUsize (usizeAsI64 node_id + node_id_offset)
      match residualLoop f (nodes_left_to_decode - 1) extra (results ++ [extra]) rv.2 with
      | (none, s) => (none, s)
      | (some out, s) => (some out.1, s)
    else (some results, s)

/-- Models `get_successors_iter_priv` (`sequential.rs:195-286`): read the
outdegree; if zero, return at once; otherwise run the reference, interval
and residual phases in order and sort the result ascending.  (`results.reserve`
is a capacity hint with no observable effect and is not modelled.) -/
def get_successors_iter_priv (W L : Nat) (f : Nat → Nat)
    (backrefs : CircularBufferVec) (node_id : Nat) (results : List Nat)
    (s : DSt) : Option (List Nat) × DSt :=
  let rdeg := s.read f .outdegree
  let degree := rdeg.1
  let s := rdeg.2
  if degree = 0 then (some results, s)
  else
    match referencePhase f W backrefs node_id results s with
    | (none, s) => (none, s)
    | (some results, s) =>
      match intervalPhase f L node_id degree results s with
      | (none, s) => (none, s)
      | (some results, s) =>
        match residualPhase f node_id degree results s with
        | (none, s) => (none, s)
        | (some results, s) => (some (sortNat results), s)

/-- Result of one pull of the `Lender` `next` (`sequential.rs:298-311`):
`exhausted` models `None`, `yield` models `Some((node_id, successors))`,
`panic` models a Rust panic (the `.unwrap()` or an unchecked operation
inside decoding; the process aborts, no value is returned). -/
inductive PullResult where
  | exhausted
  | yield (node : Nat) (succ : List Nat)
  | panic
deriving DecidableEq

/-- Models `SeqIter` (`sequential.rs:148-155`): the owned code reader
(stream plus `DSt` cursor/trace), the circular back-reference buffer, the
format parameters and the current node counter. -/
structure SeqIter where
  stream : Nat → Nat
  pos : Nat
  trace : List ReadOp
  backrefs : CircularBufferVec
  compression_window : Nat
  min_interval_length : Nat
  number_of_nodes : Nat
  current_node : Nat

/-- Models `SeqIter::new` (`sequential.rs:168-182`): fresh buffer of
capacity `compression_window + 1`, current node 0. -/
def SeqIter.new (stream : Nat → Nat)
    (compression_window min_interval_length number_of_nodes : Nat) : SeqIter :=
  ⟨stream, 0, [], CircularBufferVec.new (compression_window + 1),
    compression_window, min_interval_length, number_of_nodes, 0⟩

/-- Models `Lender::next` for `SeqIter` (`sequential.rs:298-311`): return
`None` when `current_node >= number_of_nodes`; otherwise take the recycled
slot, decode (a decoding panic, including the `.unwrap()`, aborts), push
the list back, yield `(node_id, list)` and increment `current_node`.  On
panic the returned state is immaterial (the Rust process aborts); the
pre-pull state is returned. -/
def SeqIter.next (it : SeqIter) : PullResult × SeqIter :=
  if it.number_of_nodes ≤ it.current_node then (.exhausted, it)
  else
    let tk := it.backrefs.take it.current_node
    match get_successors_iter_priv it.compression_window it.min_interval_length
        it.stream tk.2 it.current_node tk.1 ⟨it.pos, it.trace⟩ with
    | (none, _) => (.panic, it)
    | (some res, s) =>
      let pu := tk.2.push it.current_node res
      (.yield it.current_node pu.1,
        ⟨it.stream, s.pos, s.trace, pu.2, it.compression_window,
          it.min_interval_length, it.number_of_nodes, it.current_node + 1⟩)

/-- Models `next_successors` (`sequential.rs:185-191`): take the recycled
slot for `current_node`, decode (no exhaustion check!), push, increment,
return the borrowed list.  `none` models a decoding panic. -/
def SeqIter.next_successors (it : SeqIter) : Option (List Nat × SeqIter) :=
  let tk := it.backrefs.take it.current_node
  match get_successors_iter_priv it.compression_window it.min_interval_length
      it.stream tk.2 it.current_node tk.1 ⟨it.pos, it.trace⟩ with
  | (none, _) => none
  | (some res, s) =>
    let pu := tk.2.push it.current_node res
    some (pu.1,
      ⟨it.stream, s.pos, s.trace, pu.2, it.compression_window,
        it.min_interval_length, it.number_of_nodes, it.current_node + 1⟩)

/-- The state transition of one pull (discarding the yielded value), as in
the loop `for _ in 0..from { iter.next(); }` of `iter_from`. -/
def SeqIter.step (it : SeqIter) : SeqIter :=
  (SeqIter.next it).2

/-- The result of the `k`-th pull (0-based) on a trajectory starting at
`it`: advance the state `k` times, then pull once. -/
def SeqIter.pullResultAt (it : SeqIter) (k : Nat) : PullResult :=
  (SeqIter.next (SeqIter.step^[k] it)).1

/-- Models `BVGraphSeq` (`sequential.rs:32-38`): the decoder factory is a
deterministic stream source — every `new_decoder()` yields a fresh reader
positioned at bit 0 of the same underlying stream. -/
structure BVGraphSeq where
  factory : Nat → Nat
  number_of_nodes : Nat
  number_of_arcs : Option Nat
  compression_window : Nat
  min_interval_length : Nat

/-- Models `iter_from` (`sequential.rs:57-71`): build a fresh `SeqIter`
from a new decoder, then pull and discard `from` results. -/
def BVGraphSeq.iter_from (g : BVGraphSeq) (from_ : Nat) : SeqIter :=
  SeqIter.step^[from_]
    (SeqIter.new g.factory g.compression_window g.min_interval_length g.number_of_nodes)

/-- Modelled from the spec: `Graph.iterate()` (the `SequentialLabelling::iter`
default, not under `src/`) starts iteration at node 0, i.e. `iter_from 0`. -/
def BVGraphSeq.iter (g : BVGraphSeq) : SeqIter :=
  g.iter_from 0

/-! ### Specification-side definitions (written from the claims' words) -/

/-- The loop of the specification's alternating copy/skip interpretation
(claim C2): "for each block index i from 1 to B-1, end = idx + b_i + 1,
S[idx..end] is copied iff i is even, and idx becomes end"; returns the
copied elements and the final cursor. -/
def specBlocksLoop (S : List Nat) : List Nat → Nat → Nat → List Nat × Nat
  | [], _i, idx => ([], idx)
  | b :: bs, i, idx =>
    let e := idx + b + 1
    let p := specBlocksLoop S bs (i + 1) e
    ((if i % 2 = 0 then (S.drop idx).take (e - idx) else []) ++ p.1, p.2)

/-- The specification's reference-copy result (claim C2): "idx is set to
b0 and S[0..b0] is copied", then the alternating loop over the remaining
blocks, then "after the loop, S[idx..] is copied iff B is even". -/
def specRefCopy (S : List Nat) (b0 : Nat) (bs : List Nat) (B : Nat) : List Nat :=
  let p := specBlocksLoop S bs 1 b0
  S.take b0 ++ p.1 ++ (if B % 2 = 0 then S.drop p.2 else [])

/-- The specification's residual recurrence (claim C5): "each subsequent
one is the previous value plus gap + 1". -/
def resChain (x : Nat) : List Nat → List Nat
  | [] => []
  | g :: gs => (x + g + 1) :: resChain (x + g + 1) gs

/-- The specification's subsequent-intervals recurrence (claim C6): "each
of the subsequent intervals advances start by gap + 1 ... and appends a
consecutive run of its decoded length plus L, advancing start past it". -/
def intervalChain (L : Nat) : Nat → List (Nat × Nat) → List Nat
  | _, [] => []
  | start, p :: ps =>
    let st := start + p.1 + 1
    let delta := p.2 + L
    List.range' st delta ++ intervalChain L (st + delta) ps

/-! ### Helper lemmas -/

theorem nat2int_lt (v : Nat) (hv : v < 2 ^ 64) : nat2int v < 2 ^ 63 := by
  have h : v / 2 < 2 ^ 63 := by omega
  unfold nat2int
  split
  · exact_mod_cast h
  · have h2 : (0 : Int) ≤ ((v / 2 : Nat) : Int) := Int.natCast_nonneg _
    have h3 : (0 : Int) < 2 ^ 63 := by norm_num
    omega

theorem decodeStart_eq (node_id v : Nat) (hn : node_id < 2 ^ 63) (hv : v < 2 ^ 64)
    (hx : 0 ≤ (node_id : Int) + nat2int v) :
    i64AsUsize (usizeAsI64 node_id + nat2int v) = ((node_id : Int) + nat2int v).toNat := by
  have h1 : usizeAsI64 node_id = (node_id : Int) := by
    unfold usizeAsI64
    exact if_pos hn
  have h2 : nat2int v < 2 ^ 63 := nat2int_lt v hv
  have h3 : (node_id : Int) + nat2int v < 2 ^ 64 := by
    have : (node_id : Int) < 2 ^ 63 := by exact_mod_cast hn
    have he : (2 ^ 63 : Int) + 2 ^ 63 = 2 ^ 64 := by norm_num
    omega
  unfold i64AsUsize
  rw [h1, Int.emod_eq_of_lt hx h3]

theorem resChain_length (x : Nat) (gs : List Nat) : (resChain x gs).length = gs.length := by
  induction gs generalizing x with
  | nil => rfl
  | cons g gs ih => simp [resChain, ih]

theorem sortNat_length (l : List Nat) : (sortNat l).length = l.length :=
  (List.perm_insertionSort (· ≤ ·) l).length_eq

theorem sortNat_sorted (l : List Nat) : (sortNat l).Sorted (· ≤ ·) :=
  List.sorted_insertionSort (· ≤ ·) l

theorem specBlocksLoop_snd (S : List Nat) (bs : List Nat) :
    ∀ (i idx : Nat), (specBlocksLoop S bs i idx).2 = idx + (bs.map (· + 1)).sum := by
  induction bs with
  | nil => intro i idx; simp [specBlocksLoop]
  | cons b bs ih =>
    intro i idx
    simp only [specBlocksLoop, List.map_cons, List.sum_cons]
    rw [ih]
    omega

theorem copyBlocks_spec (f : Nat → Nat) (S : List Nat) (bs : List Nat) :
    ∀ (blockId idx : Nat) (results : List Nat) (s : DSt),
      (∀ j, j < bs.length → f (s.pos + j) = bs.getD j 0) →
      idx + (bs.map (· + 1)).sum ≤ S.length →
      copyBlocks f S bs.length blockId idx results s =
        (some (results ++ (specBlocksLoop S bs blockId idx).1,
          (specBlocksLoop S bs blockId idx).2),
         ⟨s.pos + bs.length, s.trace ++ List.replicate bs.length ReadOp.block⟩) := by
  induction bs with
  | nil =>
    intro blockId idx results s _hf _hb
    simp [copyBlocks, specBlocksLoop]
  | cons b bs ih =>
    intro blockId idx results s hf hb
    have h0 : f s.pos = b := by simpa using hf 0 (by simp)
    have hsum : idx + (b + 1) + (bs.map (· + 1)).sum ≤ S.length := by
      simp only [List.map_cons, List.sum_cons] at hb
      omega
    have hf' : ∀ j, j < bs.length → f (s.pos + 1 + j) = bs.getD j 0 := by
      intro j hj
      have h := hf (j + 1) (by simpa using Nat.succ_lt_succ hj)
      have he : s.pos + (j + 1) = s.pos + 1 + j := by omega
      rw [he] at h
      simpa using h
    have hslice : sliceRange S idx (idx + b + 1) =
        some ((S.drop idx).take (idx + b + 1 - idx)) := by
      unfold sliceRange
      rw [if_pos ⟨by omega, by omega⟩]
    by_cases hpar : blockId % 2 = 0
    · simp only [List.length_cons, copyBlocks, DSt.read, h0, hpar, if_pos, hslice,
        specBlocksLoop, if_true]
      rw [ih (blockId + 1) (idx + b + 1) (results ++ (S.drop idx).take (idx + b + 1 - idx))
        ⟨s.pos + 1, s.trace ++ [ReadOp.block]⟩ hf' (by omega)]
      simp [List.append_assoc, List.replicate_succ]
      omega
    · simp only [List.length_cons, copyBlocks, DSt.read, h0, hpar, if_false,
        specBlocksLoop, if_neg hpar]
      rw [ih (blockId + 1) (idx + b + 1) results
        ⟨s.pos + 1, s.trace ++ [ReadOp.block]⟩ hf' (by omega)]
      simp [List.append_assoc, List.replicate_succ]
      omega

theorem residualLoop_spec (f : Nat → Nat) (gaps : List Nat) :
    ∀ (extra : Nat) (results : List Nat) (s : DSt),
      (∀ j, j < gaps.length → f (s.pos + j) = gaps.getD j 0) →
      extra + (gaps.map (· + 1)).sum < 2 ^ 64 →
      (residualLoop f gaps.length extra results s).1 =
        some (results ++ resChain extra gaps, extra + (gaps.map (· + 1)).sum) := by
  induction gaps with
  | nil => intro extra results s _ _; simp [residualLoop, resChain]
  | cons g gs ih =>
    intro extra results s hf hov
    have h0 : f s.pos = g := by simpa using hf 0 (by simp)
    have hf' : ∀ j, j < gs.length → f (s.pos + 1 + j) = gs.getD j 0 := by
      intro j hj
      have h := hf (j + 1) (by simpa using Nat.succ_lt_succ hj)
      have he : s.pos + (j + 1) = s.pos + 1 + j := by omega
      rw [he] at h
      simpa using h
    simp only [List.map_cons, List.sum_cons] at hov
    have ha1 : usizeAdd 1 g = some (1 + g) := by
      unfold usizeAdd
      rw [if_pos (by omega)]
    have ha2 : usizeAdd extra (1 + g) = some (extra + (1 + g)) := by
      unfold usizeAdd
      rw [if_pos (by omega)]
    have harith : extra + (1 + g) = extra + g + 1 := by omega
    simp only [List.length_cons, residualLoop, DSt.read, h0, ha1, ha2, harith, resChain]
    rw [ih (extra + g + 1) (results ++ [extra + g + 1])
      ⟨s.pos + 1, s.trace ++ [ReadOp.residual]⟩ hf' (by omega)]
    simp only [Option.some.injEq, Prod.mk.injEq, List.map_cons, List.sum_cons]
    constructor
    · simp [List.append_assoc]
    · omega

theorem intervalLoop_spec (f : Nat → Nat) (L : Nat) (ps : List (Nat × Nat)) :
    ∀ (start : Nat) (results : List Nat) (s : DSt),
      (∀ j, j < ps.length → f (s.pos + 2 * j) = (ps.getD j (0, 0)).1 ∧
        f (s.pos + 2 * j + 1) = (ps.getD j (0, 0)).2) →
      start + (ps.map (fun p => p.1 + p.2 + L + 1)).sum < 2 ^ 64 →
      (intervalLoop f L ps.length start results s).1 =
        some (results ++ intervalChain L start ps,
          start + (ps.map (fun p => p.1 + p.2 + L + 1)).sum) := by
  induction ps with
  | nil => intro start results s _ _; simp [intervalLoop, intervalChain]
  | cons p ps ih =>
    intro start results s hf hov
    have h00 := (hf 0 (by simp)).1
    have h01 := (hf 0 (by simp)).2
    have h0 : f s.pos = p.1 := by simpa using h00
    have h1 : f (s.pos + 1) = p.2 := by simpa using h01
    have hf' : ∀ j, j < ps.length → f (s.pos + 2 + 2 * j) = (ps.getD j (0, 0)).1 ∧
        f (s.pos + 2 + 2 * j + 1) = (ps.getD j (0, 0)).2 := by
      intro j hj
      have h := hf (j + 1) (by simpa using Nat.succ_lt_succ hj)
      have he : s.pos + 2 * (j + 1) = s.pos + 2 + 2 * j := by omega
      rw [he] at h
      simpa using h
    simp only [List.map_cons, List.sum_cons] at hov
    have ha1 : usizeAdd 1 p.1 = some (1 + p.1) := by
      unfold usizeAdd
      rw [if_pos (by omega)]
    have ha2 : usizeAdd start (1 + p.1) = some (start + (1 + p.1)) := by
      unfold usizeAdd
      rw [if_pos (by omega)]
    have ha3 : usizeAdd p.2 L = some (p.2 + L) := by
      unfold usizeAdd
      rw [if_pos (by omega)]
    have ha4 : usizeAdd (start + p.1 + 1) (p.2 + L) =
        some (start + p.1 + 1 + (p.2 + L)) := by
      unfold usizeAdd
      rw [if_pos (by omega)]
    have harith : start + (1 + p.1) = start + p.1 + 1 := by omega
    simp only [List.length_cons, intervalLoop, DSt.read, h0, h1, ha1, ha2, ha3, ha4,
      harith, intervalChain]
    rw [ih (start + p.1 + 1 + (p.2 + L))
      (results ++ List.range' (start + p.1 + 1) (p.2 + L))
      ⟨s.pos + 2, s.trace ++ [ReadOp.intervalStart] ++ [ReadOp.intervalLen]⟩ hf' (by omega)]
    simp only [Option.some.injEq, Prod.mk.injEq, List.map_cons, List.sum_cons]
    constructor
    · simp [List.append_assoc]
    · omega

/-- Claim C2: in the reference phase with `B > 0` blocks over reference
list `S`, decoding copies exactly the even-indexed blocks: `idx` is set to
`b0` and `S[0..b0]` is copied; for each block index `i` from 1 to `B-1`,
`end = idx + b_i + 1`, `S[idx..end]` is copied iff `i` is even, and `idx`
becomes `end`; after the loop, `S[idx..]` is copied iff `B` is even; `b0`
may be zero while every subsequent block length carries an implicit `+1`. -/
theorem C2_reference_blocks (f : Nat → Nat) (W : Nat) (backrefs : CircularBufferVec)
    (node_id r b0 B : Nat) (bs : List Nat) (results : List Nat) (s : DSt)
    (hW : W ≠ 0) (hr0 : r ≠ 0) (hrn : r ≤ node_id)
    (hfr : f s.pos = r) (hfB : f (s.pos + 1) = B) (hB : B = bs.length + 1)
    (hfb0 : f (s.pos + 2) = b0)
    (hbs : ∀ j, j < bs.length → f (s.pos + 3 + j) = bs.getD j 0)
    (hbound : b0 + (bs.map (· + 1)).sum ≤ (backrefs.index (node_id - r)).length) :
    (referencePhase f W backrefs node_id results s).1 =
      some (results ++ specRefCopy (backrefs.index (node_id - r)) b0 bs B) := by
  have hb0len : b0 ≤ (backrefs.index (node_id - r)).length := by omega
  have hslice0 : sliceRange (backrefs.index (node_id - r)) 0 b0 =
      some (((backrefs.index (node_id - r)).drop 0).take (b0 - 0)) := by
    unfold sliceRange
    rw [if_pos ⟨Nat.zero_le _, by omega⟩]
  have hbs' : ∀ j, j < bs.length → f (s.pos + 1 + 1 + 1 + j) = bs.getD j 0 := by
    intro j hj
    have he : s.pos + 1 + 1 + 1 + j = s.pos + 3 + j := by omega
    rw [he]
    exact hbs j hj
  have hcb := copyBlocks_spec f (backrefs.index (node_id - r)) bs 1 b0
    (results ++ ((backrefs.index (node_id - r)).drop 0).take (b0 - 0))
    ⟨s.pos + 1 + 1 + 1, s.trace ++ [ReadOp.refOffset] ++ [ReadOp.blockCount] ++ [ReadOp.block]⟩
    hbs' hbound
  have hsnd := specBlocksLoop_snd (backrefs.index (node_id - r)) bs 1 b0
  have htail : sliceRange (backrefs.index (node_id - r))
      (specBlocksLoop (backrefs.index (node_id - r)) bs 1 b0).2
      (backrefs.index (node_id - r)).length =
      some ((backrefs.index (node_id - r)).drop
        (specBlocksLoop (backrefs.index (node_id - r)) bs 1 b0).2) := by
    unfold sliceRange
    rw [if_pos ⟨by omega, le_refl _⟩]
    rw [← List.length_drop]
    rw [List.take_length]
  unfold referencePhase
  simp only [DSt.read, hW, if_true, ite_true, hfr, hfB, hfb0, ne_eq, hr0,
    not_false_iff, hrn, if_pos, hB, Nat.succ_ne_zero, Nat.add_sub_cancel]
  rw [if_neg not_false]
  rw [hslice0]
  dsimp only
  rw [hcb]
  dsimp only
  by_cases hpar : (bs.length + 1) % 2 = 0
  · rw [if_pos hpar]
    rw [htail]
    dsimp only
    simp [specRefCopy, hpar, List.append_assoc]
  · rw [if_neg hpar]
    dsimp only
    simp [specRefCopy, hpar, List.append_assoc]

/-- Claim C5: when `remaining > 0` residuals must be decoded after the
reference and interval phases, the decoder pushes exactly `remaining`
values: the first is `n + nat2int x0` for the first residual code `x0`,
and each subsequent one is the previous value plus `gap + 1` for a
non-negative gap; after sorting, the output list has length exactly the
declared degree `d`.  Stated on the format's domain: the first residual
is non-negative and the accumulated values stay below `2^64`, so none of
the checked `usize` additions overflows. -/
theorem C5_residuals (f : Nat → Nat) (node_id degree : Nat) (results : List Nat)
    (s : DSt) (gaps : List Nat)
    (hlen : results.length < degree)
    (hn : node_id < 2 ^ 63) (hv : f s.pos < 2 ^ 64)
    (hx : 0 ≤ (node_id : Int) + nat2int (f s.pos))
    (hgaps : gaps.length = degree - results.length - 1)
    (hfg : ∀ j, j < gaps.length → f (s.pos + 1 + j) = gaps.getD j 0)
    (hov : ((node_id : Int) + nat2int (f s.pos)).toNat +
      (gaps.map (· + 1)).sum < 2 ^ 64) :
    (residualPhase f node_id degree results s).1 =
      some (results ++ (((node_id : Int) + nat2int (f s.pos)).toNat ::
        resChain (((node_id : Int) + nat2int (f s.pos)).toNat) gaps)) ∧
    (results ++ (((node_id : Int) + nat2int (f s.pos)).toNat ::
        resChain (((node_id : Int) + nat2int (f s.pos)).toNat) gaps)).length = degree ∧
    (sortNat (results ++ (((node_id : Int) + nat2int (f s.pos)).toNat ::
        resChain (((node_id : Int) + nat2int (f s.pos)).toNat) gaps))).length = degree := by
  have hcast := decodeStart_eq node_id (f s.pos) hn hv hx
  have hnotlt : ¬ degree < results.length := by omega
  have hne : degree - results.length ≠ 0 := by omega
  have hsteps : degree - results.length - 1 = gaps.length := hgaps.symm
  have hloop := residualLoop_spec f gaps (((node_id : Int) + nat2int (f s.pos)).toNat)
    (results ++ [(((node_id : Int) + nat2int (f s.pos)).toNat)])
    ⟨s.pos + 1, s.trace ++ [ReadOp.firstResidual]⟩ (by
      intro j hj
      exact hfg j hj) hov
  have hlength : (results ++ (((node_id : Int) + nat2int (f s.pos)).toNat ::
      resChain (((node_id : Int) + nat2int (f s.pos)).toNat) gaps)).length = degree := by
    simp [List.length_append, resChain_length]
    omega
  refine ⟨?_, hlength, ?_⟩
  · unfold residualPhase
    rw [if_neg hnotlt]
    rw [if_pos hne]
    simp only [DSt.read, hcast, hsteps]
    split
    · rename_i s2 heq
      rw [heq] at hloop
      simp at hloop
    · rename_i out s2 heq
      obtain ⟨l1, v1⟩ := out
      rw [heq] at hloop
      simp only [Option.some.injEq, Prod.mk.injEq] at hloop
      dsimp only
      rw [hloop.1]
      simp
  · rw [sortNat_length]
    exact hlength

/-- Claim C6: in the interval phase with `I > 0` intervals, the first
interval starts at `start = n + nat2int s0` and appends the consecutive
run `start, start+1, ..., start+delta-1` where `delta` is the decoded
length plus `L`; each of the subsequent `I-1` intervals advances `start`
by `gap + 1` for a non-negative decoded gap and appends a consecutive run
of its decoded length plus `L`, advancing `start` past it.  Stated on the
format's domain: the first start is non-negative and the accumulated
cursor stays below `2^64`, so none of the checked `usize` additions
overflows. -/
theorem C6_intervals (f : Nat → Nat) (L : Nat) (node_id degree : Nat)
    (results : List Nat) (s : DSt) (ps : List (Nat × Nat))
    (hlen : results.length < degree) (hL : L ≠ 0)
    (hI : f s.pos ≠ 0) (hps : ps.length = f s.pos - 1)
    (hn : node_id < 2 ^ 63) (hv : f (s.pos + 1) < 2 ^ 64)
    (hx : 0 ≤ (node_id : Int) + nat2int (f (s.pos + 1)))
    (hreads : ∀ j, j < ps.length → f (s.pos + 3 + 2 * j) = (ps.getD j (0, 0)).1 ∧
      f (s.pos + 3 + 2 * j + 1) = (ps.getD j (0, 0)).2)
    (hov : ((node_id : Int) + nat2int (f (s.pos + 1))).toNat + (f (s.pos + 2) + L) +
      (ps.map (fun p => p.1 + p.2 + L + 1)).sum < 2 ^ 64) :
    (intervalPhase f L node_id degree results s).1 =
      some (results ++
        List.range' (((node_id : Int) + nat2int (f (s.pos + 1))).toNat) (f (s.pos + 2) + L) ++
        intervalChain L ((((node_id : Int) + nat2int (f (s.pos + 1))).toNat) + (f (s.pos + 2) + L))
          ps) := by
  have hcast := decodeStart_eq node_id (f (s.pos + 1)) hn hv hx
  have hnotlt : ¬ degree < results.length := by omega
  have hne : (degree - results.length ≠ 0) ∧ L ≠ 0 := ⟨by omega, hL⟩
  have hreads' : ∀ j, j < ps.length → f (s.pos + 2 + 1 + 2 * j) = (ps.getD j (0, 0)).1 ∧
      f (s.pos + 2 + 1 + 2 * j + 1) = (ps.getD j (0, 0)).2 := by
    intro j hj
    have he : s.pos + 2 + 1 + 2 * j = s.pos + 3 + 2 * j := by omega
    rw [he]
    exact hreads j hj
  have hloop := intervalLoop_spec f L ps
    ((((node_id : Int) + nat2int (f (s.pos + 1))).toNat) + (f (s.pos + 2) + L))
    (results ++ List.range' (((node_id : Int) + nat2int (f (s.pos + 1))).toNat)
      (f (s.pos + 2) + L))
    ⟨s.pos + 2 + 1, s.trace ++ [ReadOp.intervalCount] ++ [ReadOp.intervalStart]
      ++ [ReadOp.intervalLen]⟩ hreads' (by omega)
  have haD : usizeAdd (f (s.pos + 2)) L = some (f (s.pos + 2) + L) := by
    unfold usizeAdd
    rw [if_pos (by omega)]
  have haS : usizeAdd (((node_id : Int) + nat2int (f (s.pos + 1))).toNat)
      (f (s.pos + 2) + L) =
      some ((((node_id : Int) + nat2int (f (s.pos + 1))).toNat) + (f (s.pos + 2) + L)) := by
    unfold usizeAdd
    rw [if_pos (by omega)]
  unfold intervalPhase
  rw [if_neg hnotlt]
  rw [if_pos hne]
  simp only [DSt.read, hcast]
  rw [if_pos hI]
  rw [show s.pos + 1 + 1 = s.pos + 2 from by omega]
  rw [haD]
  dsimp only
  rw [haS]
  dsimp only
  rw [← hps]
  split
  · rename_i s2 heq
    rw [heq] at hloop
    simp at hloop
  · rename_i out s2 heq
    obtain ⟨l1, v1⟩ := out
    rw [heq] at hloop
    simp only [Option.some.injEq, Prod.mk.injEq] at hloop
    dsimp only
    rw [hloop.1]

theorem referencePhase_W0 (f : Nat → Nat) (backrefs : CircularBufferVec)
    (node_id : Nat) (results : List Nat) (s : DSt) :
    referencePhase f 0 backrefs node_id results s = (some results, s) := by
  simp [referencePhase]

theorem intervalLoop_trace (f : Nat → Nat) (L : Nat) :
    ∀ (steps start : Nat) (results : List Nat) (s : DSt)
      (o : Option (List Nat × Nat)) (s2 : DSt),
      intervalLoop f L steps start results s = (o, s2) →
      ReadOp.refOffset ∉ s.trace →
      ReadOp.refOffset ∉ s2.trace := by
  intro steps
  induction steps with
  | zero =>
    intro start results s o s2 heq h
    cases heq
    exact h
  | succ n ih =>
    intro start results s o s2 heq h
    simp only [intervalLoop, DSt.read] at heq
    split at heq
    · cases heq
      simp [h]
    · split at heq
      · cases heq
        simp [h]
      · split at heq
        · cases heq
          simp [h]
        · split at heq
          · cases heq
            simp [h]
          · exact ih _ _ _ _ _ heq (by simp [h])

theorem residualLoop_trace (f : Nat → Nat) :
    ∀ (steps extra : Nat) (results : List Nat) (s : DSt)
      (o : Option (List Nat × Nat)) (s2 : DSt),
      residualLoop f steps extra results s = (o, s2) →
      ReadOp.refOffset ∉ s.trace →
      ReadOp.refOffset ∉ s2.trace := by
  intro steps
  induction steps with
  | zero =>
    intro extra results s o s2 heq h
    cases heq
    exact h
  | succ n ih =>
    intro extra results s o s2 heq h
    simp only [residualLoop, DSt.read] at heq
    split at heq
    · cases heq
      simp [h]
    · split at heq
      · cases heq
        simp [h]
      · exact ih _ _ _ _ _ heq (by simp [h])

theorem intervalPhase_trace (f : Nat → Nat) (L node_id degree : Nat)
    (results : List Nat) (s : DSt) (h : ReadOp.refOffset ∉ s.trace) :
    ReadOp.refOffset ∉ (intervalPhase f L node_id degree results s).2.trace := by
  unfold intervalPhase
  split
  · exact h
  · dsimp only
    split
    · simp only [DSt.read]
      split
      · split
        · simp [h]
        · split
          · simp [h]
          · split
            · rename_i s2 heq
              exact intervalLoop_trace f L _ _ _ _ _ _ heq (by simp [h])
            · rename_i out s2 heq
              exact intervalLoop_trace f L _ _ _ _ _ _ heq (by simp [h])
      · simp [h]
    · exact h

theorem residualPhase_trace (f : Nat → Nat) (node_id degree : Nat)
    (results : List Nat) (s : DSt) (h : ReadOp.refOffset ∉ s.trace) :
    ReadOp.refOffset ∉ (residualPhase f node_id degree results s).2.trace := by
  unfold residualPhase
  split
  · exact h
  · dsimp only
    split
    · simp only [DSt.read]
      split
      · rename_i s2 heq
        exact residualLoop_trace f _ _ _ _ _ _ heq (by simp [h])
      · rename_i out s2 heq
        exact residualLoop_trace f _ _ _ _ _ _ heq (by simp [h])
    · exact h

theorem gsp_trace_W0 (f : Nat → Nat) (L : Nat) (backrefs : CircularBufferVec)
    (node_id : Nat) (results : List Nat) (s : DSt)
    (h : ReadOp.refOffset ∉ s.trace) :
    ReadOp.refOffset ∉ (get_successors_iter_priv 0 L f backrefs node_id results s).2.trace := by
  unfold get_successors_iter_priv
  simp only [DSt.read]
  split
  · simp [h]
  · rw [referencePhase_W0]
    dsimp only
    have h1 : ReadOp.refOffset ∉ (DSt.mk (s.pos + 1) (s.trace ++ [ReadOp.outdegree])).trace := by
      simp [h]
    rcases hip : intervalPhase f L node_id (f s.pos) results
        ⟨s.pos + 1, s.trace ++ [ReadOp.outdegree]⟩ with ⟨o2, s2⟩
    have h2 : ReadOp.refOffset ∉ s2.trace := by
      have h2a := intervalPhase_trace f L node_id (f s.pos) results
        ⟨s.pos + 1, s.trace ++ [ReadOp.outdegree]⟩ h1
      rw [hip] at h2a
      exact h2a
    cases o2 with
    | none => exact h2
    | some res2 =>
      dsimp only
      rcases hrp : residualPhase f node_id (f s.pos) res2 s2 with ⟨o3, s3⟩
      have h3 : ReadOp.refOffset ∉ s3.trace := by
        have h3a := residualPhase_trace f node_id (f s.pos) res2 s2 h2
        rw [hrp] at h3a
        exact h3a
      cases o3 with
      | none => exact h3
      | some res3 => exact h3

/-- Claim C7: the gating of the reference phase is structural, not
value-based: when `W = 0` the decoder never invokes
`read_reference_offset` (no reference-offset field is consumed from the
stream, whatever its content), and when the decoded degree is 0 no
further per-node fields are read at all (only the outdegree read is
performed). -/
theorem C7_structural_gating (f : Nat → Nat) (W L : Nat) (backrefs : CircularBufferVec)
    (node_id : Nat) (results : List Nat) (s : DSt)
    (h : ReadOp.refOffset ∉ s.trace) :
    ReadOp.refOffset ∉ (get_successors_iter_priv 0 L f backrefs node_id results s).2.trace ∧
    (f s.pos = 0 → get_successors_iter_priv W L f backrefs node_id results s =
      (some results, ⟨s.pos + 1, s.trace ++ [ReadOp.outdegree]⟩)) := by
  refine ⟨gsp_trace_W0 f L backrefs node_id results s h, ?_⟩
  intro h0
  unfold get_successors_iter_priv
  simp [DSt.read, h0]

theorem next_of_exhausted (it : SeqIter) (h : it.number_of_nodes ≤ it.current_node) :
    SeqIter.next it = (.exhausted, it) := by
  unfold SeqIter.next
  rw [if_pos h]

theorem step_of_exhausted (it : SeqIter) (h : it.number_of_nodes ≤ it.current_node) :
    SeqIter.step it = it := by
  unfold SeqIter.step
  rw [next_of_exhausted it h]

theorem iterate_step_of_exhausted (it : SeqIter) (h : it.number_of_nodes ≤ it.current_node) :
    ∀ m, SeqIter.step^[m] it = it := by
  intro m
  induction m with
  | zero => rfl
  | succ n ih => rw [Function.iterate_succ_apply, step_of_exhausted it h, ih]

theorem next_of_active (it : SeqIter) (h : it.current_node < it.number_of_nodes)
    (hnp : (SeqIter.next it).1 ≠ .panic) :
    (SeqIter.step it).current_node = it.current_node + 1 ∧
    (SeqIter.step it).number_of_nodes = it.number_of_nodes ∧
    ∃ l, (SeqIter.next it).1 = .yield it.current_node l := by
  unfold SeqIter.step SeqIter.next
  unfold SeqIter.next at hnp
  rw [if_neg (Nat.not_le.mpr h)] at *
  dsimp only at hnp ⊢
  rcases hg : get_successors_iter_priv it.compression_window it.min_interval_length
      it.stream (it.backrefs.take it.current_node).2 it.current_node
      (it.backrefs.take it.current_node).1 ⟨it.pos, it.trace⟩ with ⟨o, s'⟩
  rw [hg] at hnp
  cases o with
  | none => exact absurd rfl hnp
  | some res => exact ⟨rfl, rfl, _, rfl⟩

theorem iterState (f : Nat → Nat) (W L N : Nat) :
    ∀ k, k ≤ N →
      (∀ j, j < k → SeqIter.pullResultAt (SeqIter.new f W L N) j ≠ PullResult.panic) →
      (SeqIter.step^[k] (SeqIter.new f W L N)).current_node = k ∧
      (SeqIter.step^[k] (SeqIter.new f W L N)).number_of_nodes = N := by
  intro k
  induction k with
  | zero => intro _ _; exact ⟨rfl, rfl⟩
  | succ n ih =>
    intro hk hnp
    obtain ⟨hc, hN⟩ := ih (by omega) (fun j hj => hnp j (by omega))
    have hact : (SeqIter.step^[n] (SeqIter.new f W L N)).current_node <
        (SeqIter.step^[n] (SeqIter.new f W L N)).number_of_nodes := by
      rw [hc, hN]; omega
    have hp : (SeqIter.next (SeqIter.step^[n] (SeqIter.new f W L N))).1 ≠ PullResult.panic :=
      hnp n (by omega)
    obtain ⟨h1, h2, _⟩ := next_of_active _ hact hp
    rw [Function.iterate_succ_apply']
    exact ⟨by rw [show SeqIter.step (SeqIter.step^[n] (SeqIter.new f W L N)) =
        SeqIter.step (SeqIter.step^[n] (SeqIter.new f W L N)) from rfl, h1, hc],
      by rw [h2, hN]⟩

/-- Claim C1: for every graph with `num_nodes = N` (and every stream `f`,
on a run where no pull panics), the `k`-th pull of a fresh iterator
yields node id exactly `k` for `k < N` — so the ids come out as
`0, 1, ..., N-1`, no skipping, no repeats — and every pull with `k ≥ N`
finds the iterator exhausted (`current == num_nodes`) and returns the
empty result `None`, with no reverse transition. -/
theorem C1_node_sequence (f : Nat → Nat) (W L N k : Nat)
    (hnp : ∀ j, j < N → SeqIter.pullResultAt (SeqIter.new f W L N) j ≠ PullResult.panic) :
    (k < N → ∃ l, SeqIter.pullResultAt (SeqIter.new f W L N) k = PullResult.yield k l) ∧
    (N ≤ k → SeqIter.pullResultAt (SeqIter.new f W L N) k = PullResult.exhausted) := by
  constructor
  · intro hk
    obtain ⟨hc, hN⟩ := iterState f W L N k (by omega) (fun j hj => hnp j (by omega))
    have hact : (SeqIter.step^[k] (SeqIter.new f W L N)).current_node <
        (SeqIter.step^[k] (SeqIter.new f W L N)).number_of_nodes := by
      rw [hc, hN]; omega
    have hp : (SeqIter.next (SeqIter.step^[k] (SeqIter.new f W L N))).1 ≠ PullResult.panic :=
      hnp k hk
    obtain ⟨_, _, l, hl⟩ := next_of_active _ hact hp
    rw [hc] at hl
    exact ⟨l, hl⟩
  · intro hk
    obtain ⟨hc, hN⟩ := iterState f W L N N (le_refl N) (fun j hj => hnp j hj)
    have hex : (SeqIter.step^[N] (SeqIter.new f W L N)).number_of_nodes ≤
        (SeqIter.step^[N] (SeqIter.new f W L N)).current_node := by
      rw [hc, hN]
    obtain ⟨m, rfl⟩ : ∃ m, k = m + N := ⟨k - N, by omega⟩
    unfold SeqIter.pullResultAt
    rw [Function.iterate_add_apply]
    rw [iterate_step_of_exhausted _ hex m]
    rw [next_of_exhausted _ hex]

theorem C1_node_sequence_witness :
    SeqIter.pullResultAt (SeqIter.new (fun _ => 0) 0 0 1) 1 = PullResult.exhausted :=
  (C1_node_sequence (fun _ => 0) 0 0 1 1 (by decide)).2 (by decide)

/-- Claim C8: for every `k`, the iterator produced by `iterate_from(k)`
yields exactly the same sequence of `(node_id, successor list)` pulls as
the iterator produced by `iterate()` after `k` pulls have been performed
and discarded: for every `j`, the `j`-th pull of `iter_from k` equals the
`(k+j)`-th pull of `iter()`. -/
theorem C8_iter_from_skip (g : BVGraphSeq) (k j : Nat) :
    SeqIter.next (SeqIter.step^[j] (g.iter_from k)) =
      SeqIter.next (SeqIter.step^[k + j] g.iter) := by
  unfold BVGraphSeq.iter BVGraphSeq.iter_from
  rw [Function.iterate_zero_apply]
  rw [Nat.add_comm k j, Function.iterate_add_apply]

/-- Claim C10 (amended): for every iterator state that is still active
(`current_node < number_of_nodes`), `next_successors()` and the `Lender`
`next()` are equivalent: when decoding succeeds they perform the same
take/decode/push/increment sequence, yield the same successor list for
the same node id and leave the iterator in the same state, and when
decoding panics both abort. -/
theorem C10_next_equiv (it : SeqIter) (hact : it.current_node < it.number_of_nodes) :
    (∀ l it', it.next_successors = some (l, it') →
      SeqIter.next it = (PullResult.yield it.current_node l, it')) ∧
    (it.next_successors = none → SeqIter.next it = (PullResult.panic, it)) := by
  unfold SeqIter.next SeqIter.next_successors
  rw [if_neg (Nat.not_le.mpr hact)]
  dsimp only
  rcases hg : get_successors_iter_priv it.compression_window it.min_interval_length
      it.stream (it.backrefs.take it.current_node).2 it.current_node
      (it.backrefs.take it.current_node).1 ⟨it.pos, it.trace⟩ with ⟨o, s'⟩
  cases o with
  | none =>
    constructor
    · intro l it' h
      simp at h
    · intro _
      rfl
  | some res =>
    constructor
    · intro l it' h
      simp only [Option.some.injEq, Prod.mk.injEq] at h
      obtain ⟨h1, h2⟩ := h
      rw [← h1, ← h2]
    · intro h
      simp at h

/-- Claim C10 is refuted in an exhausted state in which decoding would
succeed: with `num_nodes = 0` and a stream of zeros, `next()` returns the
empty result and does not advance, while `next_successors()` decodes node
0 (yielding `[]`) and increments `current_node` to 1 — the two advancing
paths are not equivalent in every state in which decoding succeeds. -/
theorem C10_counterexample :
    (SeqIter.next (SeqIter.new (fun _ => 0) 0 0 0)).1 = PullResult.exhausted ∧
    (SeqIter.next (SeqIter.new (fun _ => 0) 0 0 0)).2.current_node = 0 ∧
    ((SeqIter.new (fun _ => 0) 0 0 0).next_successors).map
      (fun p => (p.1, p.2.current_node)) = some ([], 1) :=
  ⟨rfl, rfl, rfl⟩

theorem C10_next_equiv_witness :
    SeqIter.next (SeqIter.new (fun _ => 0) 0 0 1) =
      (PullResult.yield 0 [],
        ⟨(fun _ => 0), 1, [ReadOp.outdegree], ⟨[[]]⟩, 0, 0, 1, 1⟩) :=
  (C10_next_equiv (SeqIter.new (fun _ => 0) 0 0 1) (by decide)).1 []
    ⟨(fun _ => 0), 1, [ReadOp.outdegree], ⟨[[]]⟩, 0, 0, 1, 1⟩ rfl

theorem gsp_sorted (W L : Nat) (f : Nat → Nat) (backrefs : CircularBufferVec)
    (node_id : Nat) (s : DSt) (out : List Nat) (s' : DSt)
    (h : get_successors_iter_priv W L f backrefs node_id [] s = (some out, s')) :
    out.Sorted (· ≤ ·) := by
  unfold get_successors_iter_priv at h
  simp only [DSt.read] at h
  split at h
  · cases h
    exact List.sorted_nil
  · split at h
    · simp at h
    · split at h
      · simp at h
      · split at h
        · simp at h
        · simp only [Prod.mk.injEq, Option.some.injEq] at h
          rw [← h.1]
          exact sortNat_sorted _

/-- Claim C3 (amended): every successor list emitted by a pull is sorted
in non-decreasing order; strict increase (no duplicates) and membership
of every id in `[0, num_nodes)` hold only for well-formed input streams,
which the decoder does not verify. -/
theorem C3_emitted_sorted (it : SeqIter) (n : Nat) (l : List Nat) (it' : SeqIter)
    (h : SeqIter.next it = (PullResult.yield n l, it')) : l.Sorted (· ≤ ·) := by
  unfold SeqIter.next at h
  by_cases hex : it.number_of_nodes ≤ it.current_node
  · rw [if_pos hex] at h
    simp at h
  · rw [if_neg hex] at h
    dsimp only at h
    rcases hg : get_successors_iter_priv it.compression_window it.min_interval_length
        it.stream (it.backrefs.take it.current_node).2 it.current_node
        (it.backrefs.take it.current_node).1 ⟨it.pos, it.trace⟩ with ⟨o, s2⟩
    rw [hg] at h
    cases o with
    | none => simp at h
    | some res =>
      simp only [Prod.mk.injEq, PullResult.yield.injEq] at h
      obtain ⟨⟨_, h2⟩, _⟩ := h
      rw [← h2]
      exact gsp_sorted it.compression_window it.min_interval_length it.stream
        (it.backrefs.take it.current_node).2 it.current_node ⟨it.pos, it.trace⟩ res s2 hg

/-- Claim C3 is refuted on a stream in which node 1 copies its whole
reference list from node 0 and then decodes a residual equal to the
copied successor: the emitted list `[1, 1]` contains a duplicate, so it
is not strictly increasing; the decoder performs no check. -/
theorem C3_counterexample :
    (SeqIter.next (SeqIter.next
        (SeqIter.new (fun i => [1, 0, 2, 2, 1, 0, 0].getD i 0) 1 0 2)).2).1 =
      PullResult.yield 1 [1, 1] ∧
    ¬ List.Sorted (· < ·) [1, 1] :=
  ⟨rfl, by decide⟩

theorem C3_emitted_sorted_witness : List.Sorted (· ≤ ·) [1] :=
  C3_emitted_sorted (SeqIter.new (fun i => [1, 0, 2].getD i 0) 1 0 2) 0 [1]
    ⟨(fun i => [1, 0, 2].getD i 0), 3,
      [ReadOp.outdegree, ReadOp.refOffset, ReadOp.firstResidual],
      ⟨[[1], []]⟩, 1, 0, 2, 1⟩ (by rfl)

/-- Claim C4 (amended): no failure is surfaced to the caller of `pull()`
(the `Lender` `next`) as a returned error value: a failure during
decoding aborts the node fatally — `next()` panics (the `.unwrap()` and
the unchecked operations) and `next_successors()` aborts with no
successor list — and none is recovered locally; the read operations used
by this code are infallible, so the `Result` returned by
`next_successors` is `Ok` whenever it returns at all. -/
theorem C4_failure_aborts (it : SeqIter) (hact : it.current_node < it.number_of_nodes)
    (hfail : (get_successors_iter_priv it.compression_window it.min_interval_length it.stream
      (it.backrefs.take it.current_node).2 it.current_node
      (it.backrefs.take it.current_node).1 ⟨it.pos, it.trace⟩).1 = none) :
    SeqIter.next it = (PullResult.panic, it) ∧ it.next_successors = none := by
  unfold SeqIter.next SeqIter.next_successors
  rw [if_neg (Nat.not_le.mpr hact)]
  dsimp only
  rcases hg : get_successors_iter_priv it.compression_window it.min_interval_length
      it.stream (it.backrefs.take it.current_node).2 it.current_node
      (it.backrefs.take it.current_node).1 ⟨it.pos, it.trace⟩ with ⟨o, s2⟩
  rw [hg] at hfail
  cases o with
  | none => exact ⟨rfl, rfl⟩
  | some res => simp at hfail

/-- Claim C4 is refuted at a concrete input: on a stream whose first node
has degree 1 and reference offset 5 > 0 = node id, decoding fails, and the
failure reaches the caller of `pull()` as a panic (the process aborts),
not as a returned error value — `next` has no error channel at all. -/
theorem C4_counterexample :
    (SeqIter.next (SeqIter.new (fun i => [1, 5].getD i 0) 1 0 1)).1 = PullResult.panic :=
  rfl

theorem C4_failure_aborts_witness :
    SeqIter.next (SeqIter.new (fun i => [1, 5].getD i 0) 1 0 1) =
      (PullResult.panic, SeqIter.new (fun i => [1, 5].getD i 0) 1 0 1) ∧
    (SeqIter.new (fun i => [1, 5].getD i 0) 1 0 1).next_successors = none :=
  C4_failure_aborts (SeqIter.new (fun i => [1, 5].getD i 0) 1 0 1) (by decide) (by rfl)

theorem referencePhase_underflow (f : Nat → Nat) (W : Nat) (backrefs : CircularBufferVec)
    (node_id : Nat) (results : List Nat) (s : DSt) (hW : W ≠ 0)
    (h : node_id < f s.pos) :
    referencePhase f W backrefs node_id results s =
      (none, ⟨s.pos + 1, s.trace ++ [ReadOp.refOffset]⟩) := by
  unfold referencePhase
  simp only [DSt.read]
  rw [if_pos hW]
  dsimp only
  rw [if_pos (by omega : f s.pos ≠ 0)]
  rw [if_neg (by omega : ¬ f s.pos ≤ node_id)]

theorem referencePhase_b0_oob (f : Nat → Nat) (W : Nat) (backrefs : CircularBufferVec)
    (node_id : Nat) (results : List Nat) (s : DSt) (hW : W ≠ 0)
    (hr0 : f s.pos ≠ 0) (hrn : f s.pos ≤ node_id) (hB : f (s.pos + 1) = 1)
    (hoob : (backrefs.index (node_id - f s.pos)).length < f (s.pos + 1 + 1)) :
    referencePhase f W backrefs node_id results s =
      (none, ⟨s.pos + 1 + 1 + 1,
        s.trace ++ [ReadOp.refOffset] ++ [ReadOp.blockCount] ++ [ReadOp.block]⟩) := by
  unfold referencePhase
  simp only [DSt.read]
  rw [if_pos hW]
  dsimp only
  rw [if_pos hr0, if_pos hrn]
  simp only [hB]
  rw [if_neg (by omega : ¬ (1 : Nat) = 0)]
  have hs : sliceRange (backrefs.index (node_id - f s.pos)) 0 (f (s.pos + 1 + 1)) = none := by
    unfold sliceRange
    rw [if_neg (by omega)]
  rw [hs]

theorem referencePhase_copyall (f : Nat → Nat) (W : Nat) (backrefs : CircularBufferVec)
    (node_id : Nat) (results : List Nat) (s : DSt) (hW : W ≠ 0)
    (hr0 : f s.pos ≠ 0) (hrn : f s.pos ≤ node_id) (hB : f (s.pos + 1) = 0) :
    referencePhase f W backrefs node_id results s =
      (some (results ++ backrefs.index (node_id - f s.pos)),
        ⟨s.pos + 1 + 1, s.trace ++ [ReadOp.refOffset] ++ [ReadOp.blockCount]⟩) := by
  unfold referencePhase
  simp only [DSt.read]
  rw [if_pos hW]
  dsimp only
  rw [if_pos hr0, if_pos hrn]
  simp only [hB, if_true]

theorem intervalPhase_overflow (f : Nat → Nat) (L : Nat) (node_id degree : Nat)
    (results : List Nat) (s : DSt) (h : degree < results.length) :
    intervalPhase f L node_id degree results s = (none, s) := by
  unfold intervalPhase
  rw [if_pos h]

/-- Claim C9: the per-node decoder's unchecked `usize` arithmetic and
slice indexing are safe only under the preconditions that the decoded
reference offset `r` satisfies `r ≤ n`, that every block cursor stays
within the bounds of the referenced list, and that the reference and
interval phases together never produce more than the declared degree `d`
entries; the code performs no check of these conditions, so for every
input violating them the subtraction `n - r` or `degree - |out|`, or the
slice access, leaves the guarded domain (modelled as a panic) instead of
producing a reported decoding error. -/
theorem C9_unchecked_ops (f : Nat → Nat) (W L : Nat) (backrefs : CircularBufferVec)
    (node_id : Nat) (results : List Nat) (s : DSt)
    (hW : W ≠ 0) (hdeg : f s.pos ≠ 0) :
    (node_id < f (s.pos + 1) →
      (get_successors_iter_priv W L f backrefs node_id results s).1 = none) ∧
    (f (s.pos + 1) ≠ 0 → f (s.pos + 1) ≤ node_id → f (s.pos + 2) = 1 →
      (backrefs.index (node_id - f (s.pos + 1))).length < f (s.pos + 3) →
      (get_successors_iter_priv W L f backrefs node_id results s).1 = none) ∧
    (f (s.pos + 1) ≠ 0 → f (s.pos + 1) ≤ node_id → f (s.pos + 2) = 0 →
      f s.pos < results.length + (backrefs.index (node_id - f (s.pos + 1))).length →
      (get_successors_iter_priv W L f backrefs node_id results s).1 = none) := by
  refine ⟨?_, ?_, ?_⟩
  · intro h1
    unfold get_successors_iter_priv
    simp only [DSt.read]
    rw [if_neg hdeg]
    rw [referencePhase_underflow f W backrefs node_id results
      ⟨s.pos + 1, s.trace ++ [ReadOp.outdegree]⟩ hW h1]
  · intro h1 h2 h3 h4
    unfold get_successors_iter_priv
    simp only [DSt.read]
    rw [if_neg hdeg]
    rw [referencePhase_b0_oob f W backrefs node_id results
      ⟨s.pos + 1, s.trace ++ [ReadOp.outdegree]⟩ hW h1 h2
      (by rw [show s.pos + 1 + 1 = s.pos + 2 from by omega]; exact h3)
      (by rw [show s.pos + 1 + 1 + 1 = s.pos + 3 from by omega]; exact h4)]
  · intro h1 h2 h3 h4
    unfold get_successors_iter_priv
    simp only [DSt.read]
    rw [if_neg hdeg]
    rw [referencePhase_copyall f W backrefs node_id results
      ⟨s.pos + 1, s.trace ++ [ReadOp.outdegree]⟩ hW h1 h2
      (by rw [show s.pos + 1 + 1 = s.pos + 2 from by omega]; exact h3)]
    dsimp only
    rw [intervalPhase_overflow f L node_id (f s.pos)
      (results ++ backrefs.index (node_id - f (s.pos + 1)))
      ⟨s.pos + 1 + 1 + 1, s.trace ++ [ReadOp.outdegree] ++ [ReadOp.refOffset] ++ [ReadOp.blockCount]⟩
      (by rw [List.length_append]; omega)]

theorem C9_unchecked_ops_witness :
    (get_successors_iter_priv 1 0 (fun i => [1, 5].getD i 0)
      (CircularBufferVec.new 2) 0 [] ⟨0, []⟩).1 = none :=
  (C9_unchecked_ops (fun i => [1, 5].getD i 0) 1 0 (CircularBufferVec.new 2) 0 [] ⟨0, []⟩
    (by decide) (by decide)).1 (by decide)

theorem C2_reference_blocks_witness :
    (referencePhase (fun i => [3, 3, 2, 0, 1].getD i 0) 4
      (((CircularBufferVec.new 5).push 1 [2, 5, 7, 9, 11]).2) 4 [] ⟨0, []⟩).1 =
      some [2, 5, 9, 11] :=
  C2_reference_blocks (fun i => [3, 3, 2, 0, 1].getD i 0) 4
    (((CircularBufferVec.new 5).push 1 [2, 5, 7, 9, 11]).2) 4 3 2 3 [0, 1] [] ⟨0, []⟩
    (by decide) (by decide) (by decide) (by decide) (by decide) (by decide) (by decide)
    (by decide) (by decide)

theorem C5_residuals_witness :
    (residualPhase (fun i => [2, 1, 2].getD i 0) 0 3 [] ⟨0, []⟩).1 = some [1, 3, 6] ∧
    ([1, 3, 6] : List Nat).length = 3 ∧ (sortNat [1, 3, 6]).length = 3 :=
  C5_residuals (fun i => [2, 1, 2].getD i 0) 0 3 [] ⟨0, []⟩ [1, 2]
    (by decide) (by decide) (by decide) (by decide) (by decide) (by decide) (by decide)

theorem C6_intervals_witness :
    (intervalPhase (fun i => [1, 1, 0].getD i 0) 2 2 4 [] ⟨0, []⟩).1 = some [1, 2] :=
  C6_intervals (fun i => [1, 1, 0].getD i 0) 2 2 4 [] ⟨0, []⟩ []
    (by decide) (by decide) (by decide) (by decide) (by decide) (by decide) (by decide)
    (by decide) (by decide)

theorem C7_structural_gating_witness :
    ReadOp.refOffset ∉ (get_successors_iter_priv 0 2 (fun _ => 0)
      (CircularBufferVec.new 1) 0 [] ⟨0, []⟩).2.trace ∧
    ((0 : Nat) = 0 → get_successors_iter_priv 3 2 (fun _ => 0)
      (CircularBufferVec.new 1) 0 [] ⟨0, []⟩ =
      (some [], ⟨1, [ReadOp.outdegree]⟩)) :=
  C7_structural_gating (fun _ => 0) 3 2 (CircularBufferVec.new 1) 0 [] ⟨0, []⟩ (by decide)
